import Mathlib

/-!
Verification of the Eco-Chain integrity/verification core: the emissions
calculator (`utils/carbon_calculator.py`), the green-token generator
(`utils/token_generator.py`), the hash-linked ledger and its Merkle root
(`utils/blockchain_simulator.py`), and the registry-level Merkle computation
(`create_merkle_root` in `app.py`).

The SHA-256 primitive is modelled as an explicit parameter
`sha : String → String` (the hex-digest function); every structural fact is
proved for all `sha`, and tamper-detection facts additionally assume `sha`
has no collisions on the relevant inputs (`Function.Injective sha`), the
idealization under which the program's hash comparisons are meaningful.
Python floats are modelled as exact rationals (`ℚ`), and `json.dumps(...,
sort_keys=True)` is modelled by explicit canonical serializers below.
-/

namespace EcoChain

/-! ## Canonical JSON serialization (json.dumps with sort_keys=True) -/

/-- Lower-case hex digit. -/
def hexDigit (n : Nat) : Char :=
  if n < 10 then Char.ofNat (48 + n) else Char.ofNat (87 + n)

/-- Four-digit lower-case hex, as in JSON `\uXXXX` escapes. -/
def hex4 (n : Nat) : String :=
  String.mk [hexDigit (n / 4096 % 16), hexDigit (n / 256 % 16),
             hexDigit (n / 16 % 16), hexDigit (n % 16)]

/-- Escape of a single character, per Python's `json.dumps` defaults
(`ensure_ascii=True`): the two-character shorthands, `\uXXXX` for other
control and non-ASCII characters (astral characters idealized as one
`\uXXXX` unit), and the character itself otherwise. -/
def jsonEscapeChar (c : Char) : String :=
  if c = '"' then "\\\""
  else if c = '\\' then "\\\\"
  else if c = '\n' then "\\n"
  else if c = '\r' then "\\r"
  else if c = '\t' then "\\t"
  else if c.toNat = 8 then "\\b"
  else if c.toNat = 12 then "\\f"
  else if c.toNat < 32 ∨ 127 < c.toNat then "\\u" ++ hex4 c.toNat
  else String.singleton c

/-- JSON string literal: quoted, characters escaped. -/
def jstr (s : String) : String :=
  "\"" ++ String.join (s.data.map jsonEscapeChar) ++ "\""

/-- Executable floor of a rational (`Int.fdiv` of numerator by
denominator); equal to `Int.floor`, see `ratFloor_eq_floor`. -/
def ratFloor (q : ℚ) : ℤ := q.num.fdiv q.den

/-- Decimal digits of a rational `q` with `0 ≤ q < 1`, most significant
first, with enough fuel; terminates exactly for the terminating decimals
that Python floats denote, and stops at the fuel bound otherwise. -/
def decDigits : Nat → ℚ → String
  | 0, _ => ""
  | fuel + 1, q =>
    if q = 0 then ""
    else
      let q10 := q * 10
      let d : ℤ := ratFloor q10
      toString d.toNat ++ decDigits fuel (q10 - (d : ℚ))

/-- JSON number literal for a (float-valued) rational, in Python float
`repr` style: integer part, a dot, and the fractional digits (at least one,
`"…​.0"` for integers). -/
def jnum (q : ℚ) : String :=
  let sgn := if q < 0 then "-" else ""
  let a := |q|
  let ip : Nat := (ratFloor a).toNat
  let ds := decDigits a.den (a - (ratFloor a : ℚ))
  sgn ++ toString ip ++ "." ++ (if ds = "" then "0" else ds)

/-! ## Python's round (banker's rounding), as used with 2 decimal places -/

/-- Round-half-to-even on rationals, Python's `round` tie rule. -/
def pyRoundHalfEven (q : ℚ) : ℤ :=
  let f : ℤ := ratFloor q
  let r : ℚ := q - (f : ℚ)
  if r < 1/2 then f
  else if 1/2 < r then f + 1
  else if 2 ∣ f then f else f + 1

/-- Python's `round(q, 2)` on exact rationals. -/
def pyRound2 (q : ℚ) : ℚ :=
  (pyRoundHalfEven (q * 100) : ℚ) / 100

/-! ## Token schema (`GreenTokenGenerator`, utils/token_generator.py) -/

/-- The canonical token record built by `GreenTokenGenerator.generate_token`:
all fields, including the two integrity fields `hash` and `signature`. -/
structure Token where
  token_id : String
  version : String
  sme_id : String
  sme_name : String
  business_type : String
  month : String
  energy_kwh : ℚ
  emissions_kg : ℚ
  baseline_kg : ℚ
  emissions_reduced_kg : ℚ
  reduction_percentage : ℚ
  timestamp : String
  status : String
  hash : String
  signature : String
deriving DecidableEq, Inhabited, Repr

/-- Input fields supplied to `generate_token` (`token_data`); `timestamp`
is optional and defaults to the current instant. -/
structure TokenData where
  sme_id : String
  sme_name : String
  business_type : String
  month : String
  energy_kwh : ℚ
  emissions_kg : ℚ
  emissions_reduced_kg : ℚ
  baseline_kg : ℚ
  timestamp : Option String
deriving DecidableEq, Inhabited, Repr

/-- Sorted-keys canonical JSON of a token's non-integrity fields, the
exact preimage of the token `hash` (`_generate_hash`: every field except
`hash` and `signature`, `json.dumps(..., sort_keys=True)`). -/
def token_core_json (t : Token) : String :=
  "\x7b\"baseline_kg\": " ++ jnum t.baseline_kg ++
  ", \"business_type\": " ++ jstr t.business_type ++
  ", \"emissions_kg\": " ++ jnum t.emissions_kg ++
  ", \"emissions_reduced_kg\": " ++ jnum t.emissions_reduced_kg ++
  ", \"energy_kwh\": " ++ jnum t.energy_kwh ++
  ", \"month\": " ++ jstr t.month ++
  ", \"reduction_percentage\": " ++ jnum t.reduction_percentage ++
  ", \"sme_id\": " ++ jstr t.sme_id ++
  ", \"sme_name\": " ++ jstr t.sme_name ++
  ", \"status\": " ++ jstr t.status ++
  ", \"timestamp\": " ++ jstr t.timestamp ++
  ", \"token_id\": " ++ jstr t.token_id ++
  ", \"version\": " ++ jstr t.version ++ "\x7d"

/-- Sorted-keys canonical JSON of a full token (all fifteen fields),
the form in which a token is embedded in a block's `data`. -/
def token_full_json (t : Token) : String :=
  "\x7b\"baseline_kg\": " ++ jnum t.baseline_kg ++
  ", \"business_type\": " ++ jstr t.business_type ++
  ", \"emissions_kg\": " ++ jnum t.emissions_kg ++
  ", \"emissions_reduced_kg\": " ++ jnum t.emissions_reduced_kg ++
  ", \"energy_kwh\": " ++ jnum t.energy_kwh ++
  ", \"hash\": " ++ jstr t.hash ++
  ", \"month\": " ++ jstr t.month ++
  ", \"reduction_percentage\": " ++ jnum t.reduction_percentage ++
  ", \"signature\": " ++ jstr t.signature ++
  ", \"sme_id\": " ++ jstr t.sme_id ++
  ", \"sme_name\": " ++ jstr t.sme_name ++
  ", \"status\": " ++ jstr t.status ++
  ", \"timestamp\": " ++ jstr t.timestamp ++
  ", \"token_id\": " ++ jstr t.token_id ++
  ", \"version\": " ++ jstr t.version ++ "\x7d"

/-- `GreenTokenGenerator._generate_token_id`:
`f"GT-{sme_id}-{month}-{uuid4-prefix}".upper()`; the fresh random
suffix is the explicit argument `suffix`. -/
def generate_token_id (td : TokenData) (suffix : String) : String :=
  ("GT-" ++ td.sme_id ++ "-" ++ td.month ++ "-" ++ suffix).toUpper

/-- `GreenTokenGenerator._calculate_reduction_pct`. -/
def calculate_reduction_pct (reduction baseline : ℚ) : ℚ :=
  if baseline = 0 then 0 else pyRound2 (reduction / baseline * 100)

/-- `GreenTokenGenerator._generate_hash`: SHA-256 hex digest of the
sorted-keys JSON of every field except `hash` and `signature`. -/
def generate_hash (sha : String → String) (t : Token) : String :=
  sha (token_core_json t)

/-- `GreenTokenGenerator._generate_signature`: SHA-256 hex digest of
`token_id + timestamp + hash` (plain string concatenation). -/
def generate_signature (sha : String → String) (t : Token) : String :=
  sha (t.token_id ++ t.timestamp ++ t.hash)

/-- `GreenTokenGenerator.generate_token`: assemble the canonical record,
then compute `hash` over the non-integrity fields, then `signature`.
`suffix` is the fresh random token-id suffix, `now` the current instant
used when `token_data` carries no timestamp. -/
def generate_token (sha : String → String) (suffix now : String) (td : TokenData) : Token :=
  let base : Token :=
    { token_id := generate_token_id td suffix
      version := "1.0"
      sme_id := td.sme_id
      sme_name := td.sme_name
      business_type := td.business_type
      month := td.month
      energy_kwh := td.energy_kwh
      emissions_kg := td.emissions_kg
      baseline_kg := td.baseline_kg
      emissions_reduced_kg := td.emissions_reduced_kg
      reduction_percentage := calculate_reduction_pct td.emissions_reduced_kg td.baseline_kg
      timestamp := td.timestamp.getD now
      status := "verified"
      hash := ""
      signature := "" }
  let withHash : Token := { base with hash := generate_hash sha base }
  { withHash with signature := generate_signature sha withHash }

/-- `GreenTokenGenerator.verify_token`: recompute the hash over all fields
except `hash`/`signature` and compare to the stored `hash`; a pure
predicate, false (never an exception) on mismatch. -/
def verify_token (sha : String → String) (t : Token) : Bool :=
  t.hash == generate_hash sha t

/-! ## Ledger (`Block` and `BlockchainLedger`, utils/blockchain_simulator.py) -/

/-- A block's payload: the fixed genesis marker dict
`\x7b'message': 'Genesis Block - Eco-Chain Initialized'\x7d`, or one token. -/
inductive BlockData where
  | genesis : BlockData
  | token : Token → BlockData
deriving DecidableEq, Inhabited, Repr

/-- Sorted-keys canonical JSON of a block payload. -/
def serialize_data : BlockData → String
  | .genesis => "\x7b\"message\": " ++ jstr "Genesis Block - Eco-Chain Initialized" ++ "\x7d"
  | .token t => token_full_json t

/-- One block of the chain. -/
structure Block where
  index : Nat
  timestamp : String
  data : BlockData
  previous_hash : String
  hash : String
deriving DecidableEq, Inhabited, Repr

/-- The preimage string of `Block.calculate_hash`: `json.dumps` of the
four fields `index`, `timestamp`, `data`, `previous_hash` with sorted
keys (so in the order data, index, previous_hash, timestamp). -/
def block_string (index : Nat) (timestamp : String) (data : BlockData)
    (previous_hash : String) : String :=
  "\x7b\"data\": " ++ serialize_data data ++
  ", \"index\": " ++ toString index ++
  ", \"previous_hash\": " ++ jstr previous_hash ++
  ", \"timestamp\": " ++ jstr timestamp ++ "\x7d"

/-- `Block.calculate_hash`: SHA-256 hex digest of the block string, read
off the block's own stored fields (its stored `hash` excluded). -/
def calculate_hash (sha : String → String) (b : Block) : String :=
  sha (block_string b.index b.timestamp b.data b.previous_hash)

/-- `Block.__init__`: store the four fields and compute the hash. -/
def mkBlock (sha : String → String) (index : Nat) (timestamp : String)
    (data : BlockData) (previous_hash : String) : Block :=
  { index := index, timestamp := timestamp, data := data,
    previous_hash := previous_hash,
    hash := sha (block_string index timestamp data previous_hash) }

/-- `BlockchainLedger.create_genesis_block`: index 0, genesis marker
payload, `previous_hash = "0"`. -/
def create_genesis_block (sha : String → String) (ts : String) : Block :=
  mkBlock sha 0 ts BlockData.genesis "0"

/-- `BlockchainLedger.__init__`: the chain holding only the genesis block. -/
def initLedger (sha : String → String) (ts : String) : List Block :=
  [create_genesis_block sha ts]

/-- `BlockchainLedger.add_block`: new block with `index = len(chain)`,
the given timestamp, `previous_hash =` latest block's stored hash. -/
def add_block (sha : String → String) (chain : List Block) (ts : String)
    (d : BlockData) : List Block :=
  chain ++ [mkBlock sha chain.length ts d (chain.getLastD default).hash]

/-- A ledger obtained by initializing and then performing the given
sequence of appends (each with its own current-time stamp and payload). -/
def buildLedger (sha : String → String) (ts0 : String)
    (ops : List (String × BlockData)) : List Block :=
  ops.foldl (fun c op => add_block sha c op.1 op.2) (initLedger sha ts0)

/-- The two checks of `is_chain_valid`'s loop body at position `i ≥ 1`:
the stored hash matches the recomputed hash, and `previous_hash` matches
the prior block's stored hash. -/
def blockOkAt (sha : String → String) (chain : List Block) (i : Nat) : Bool :=
  ((chain.getD i default).hash == calculate_hash sha (chain.getD i default)) &&
  ((chain.getD i default).previous_hash == (chain.getD (i - 1) default).hash)

/-- `BlockchainLedger.is_chain_valid`: false on an empty chain, else both
checks for every `i` in `range(1, len(chain))`. -/
def is_chain_valid (sha : String → String) (chain : List Block) : Bool :=
  !chain.isEmpty && (List.range' 1 (chain.length - 1)).all (blockOkAt sha chain)

/-- In-place tampering `chain[i].data = d` (the stored hash untouched). -/
def setBlockData (chain : List Block) (i : Nat) (d : BlockData) : List Block :=
  chain.set i { chain.getD i default with data := d }

/-- In-place tampering `chain[i].previous_hash = p` (stored hash untouched). -/
def setBlockPrev (chain : List Block) (i : Nat) (p : String) : List Block :=
  chain.set i { chain.getD i default with previous_hash := p }

/-- `block.data.get('hash')`: the token's stored hash when the payload is
a token dict, absent on the genesis marker dict. -/
def dataHash : BlockData → Option String
  | .genesis => none
  | .token t => some t.hash

/-- `BlockchainLedger.verify_token_by_hash`: linear scan of the payloads. -/
def verify_token_by_hash : List Block → String → Bool
  | [], _ => false
  | b :: rest, th =>
    if dataHash b.data == some th then true else verify_token_by_hash rest th

/-- The enumerate-and-break scan of `get_proof_of_inclusion`, carrying the
running index. -/
def findTokenAux (th : String) : Nat → List Block → Option (Nat × Block)
  | _, [] => none
  | i, b :: rest =>
    if dataHash b.data == some th then some (i, b) else findTokenAux th (i + 1) rest

/-- First block (with its index) whose payload carries the token hash. -/
def findTokenBlock (chain : List Block) (th : String) : Option (Nat × Block) :=
  findTokenAux th 0 chain

/-- The dictionary returned by `get_proof_of_inclusion`: `verified` is
always present; each remaining key is present (`some`) exactly when the
source puts it in the returned dict. -/
structure InclusionProof where
  verified : Bool
  message : Option String := none
  block_index : Option Nat := none
  block_hash : Option String := none
  previous_hash : Option String := none
  timestamp : Option String := none
  merkle_root : Option (Option String) := none
  chain_valid : Option Bool := none
deriving DecidableEq, Repr

/-! ## Merkle root (ledger level and registry level) -/

/-- `if len(hashes) % 2 != 0: hashes.append(hashes[-1])`. -/
def padOdd (hs : List String) : List String :=
  if hs.length % 2 ≠ 0 then hs ++ [hs.getLastD ""] else hs

/-- One level of pairwise concatenate-and-hash over an (even-length,
after padding) list: `sha256((hashes[i] + hashes[i+1]).encode())`.
The one-element arm is unreachable from an even-length input. -/
def pairCombine (sha : String → String) : List String → List String
  | a :: b :: rest => sha (a ++ b) :: pairCombine sha rest
  | _ => []

/-- The `while len(hashes) > 1` loop of `get_merkle_root`: pad to even,
combine pairwise, repeat; returns the final level. -/
def merkleFix (sha : String → String) (hs : List String) : List String :=
  if _h : hs.length ≤ 1 then hs
  else merkleFix sha (pairCombine sha (padOdd hs))
termination_by hs.length
decreasing_by
  have key : ∀ (n : Nat) (l : List String), l.length ≤ n →
      2 * (pairCombine sha l).length ≤ l.length := by
    intro n
    induction n with
    | zero =>
      intro l hl
      have : l = [] := List.eq_nil_of_length_eq_zero (Nat.le_zero.mp hl)
      subst this; simp [pairCombine]
    | succ n ih =>
      intro l hl
      rcases l with _ | ⟨a, _ | ⟨b, rest⟩⟩
      · simp [pairCombine]
      · simp [pairCombine]
      · have hr := ih rest (by simp only [List.length_cons] at hl; omega)
        simp only [pairCombine, List.length_cons]
        omega
  have h2 : (padOdd hs).length ≤ hs.length + 1 := by
    unfold padOdd; split <;> simp
  have h3 := key (padOdd hs).length (padOdd hs) le_rfl
  omega

/-- The trailing `return hashes[0]` of the loop (absent element on an
empty input, where the source raises IndexError). -/
def merkleIter (sha : String → String) (hs : List String) : Option String :=
  (merkleFix sha hs).head?

/-- `BlockchainLedger.get_merkle_root`: `None` on an empty chain, else the
loop applied to the ordered list of block hashes. -/
def get_merkle_root (sha : String → String) (chain : List Block) : Option String :=
  if chain.isEmpty then none else merkleIter sha (chain.map Block.hash)

/-- One level of `create_merkle_root` (app.py): pair with the next element
when it exists, else pair the element with itself. -/
def appPairs (sha : String → String) : List String → List String
  | [] => []
  | [a] => [sha (a ++ a)]
  | a :: b :: rest => sha (a ++ b) :: appPairs sha rest

/-- `create_merkle_root` (app.py, registry level): hash of the fixed
empty-marker string `"empty"` on a zero-element input, the element itself
on a one-element input, else recurse on the combined level. -/
def create_merkle_root (sha : String → String) (hashes : List String) : String :=
  if _h0 : hashes.length = 0 then sha "empty"
  else if _h1 : hashes.length = 1 then hashes.headD ""
  else create_merkle_root sha (appPairs sha hashes)
termination_by hashes.length
decreasing_by
  have key : ∀ (n : Nat) (l : List String), l.length ≤ n →
      2 * (appPairs sha l).length ≤ l.length + 1 := by
    intro n
    induction n with
    | zero =>
      intro l hl
      have : l = [] := List.eq_nil_of_length_eq_zero (Nat.le_zero.mp hl)
      subst this; simp [appPairs]
    | succ n ih =>
      intro l hl
      rcases l with _ | ⟨a, _ | ⟨b, rest⟩⟩
      · simp [appPairs]
      · simp [appPairs]
      · have hr := ih rest (by simp only [List.length_cons] at hl; omega)
        simp only [appPairs, List.length_cons]
        omega
  have h3 := key hashes.length hashes le_rfl
  omega

/-- `BlockchainLedger.get_proof_of_inclusion`: locate the first block whose
payload carries the token hash; `\x7bverified: false, message: ...\x7d` when
absent, else the aggregate of block facts, Merkle root and chain validity. -/
def get_proof_of_inclusion (sha : String → String) (chain : List Block)
    (token_hash : String) : InclusionProof :=
  match findTokenBlock chain token_hash with
  | none => { verified := false, message := some "Token not found in blockchain" }
  | some (i, b) =>
    { verified := true
      block_index := some i
      block_hash := some b.hash
      previous_hash := some b.previous_hash
      timestamp := some b.timestamp
      merkle_root := some (get_merkle_root sha chain)
      chain_valid := some (is_chain_valid sha chain) }

/-! ## Carbon calculator (`CarbonCalculator`, utils/carbon_calculator.py) -/

/-- `EMISSION_FACTORS['grid_electricity']` (kg CO2 per kWh). -/
def EMISSION_FACTORS_grid_electricity : ℚ := 92/100

/-- `EMISSION_FACTORS['solar']` (kg CO2 per kWh, lifecycle). -/
def EMISSION_FACTORS_solar : ℚ := 5/100

/-- `CarbonCalculator._get_efficiency_multiplier`: `EFFICIENCY_FACTORS`
high 0.85 at ≥ 85, medium 1.0 at ≥ 70, low 1.2 otherwise. -/
def get_efficiency_multiplier (efficiency_pct : ℚ) : ℚ :=
  if 85 ≤ efficiency_pct then 85/100
  else if 70 ≤ efficiency_pct then 1
  else 12/10

/-- `CarbonCalculator._get_industry_factor`: fixed at 1.0 for every
business type. -/
def get_industry_factor (_business_type : String) : ℚ := 1

/-- `CarbonCalculator.calculate_emissions`: validate the three numeric
arguments (raising `ValueError`, modelled as `Except.error`), then the
grid/renewable split, the efficiency multiplier, the industry factor, and
`round(..., 2)`. -/
def calculate_emissions (energy_kwh : ℚ) (business_type : String)
    (renewable_pct : ℚ) (efficiency : ℚ) : Except String ℚ :=
  if energy_kwh < 0 then
    .error "Energy consumption cannot be negative"
  else if ¬(0 ≤ renewable_pct ∧ renewable_pct ≤ 100) then
    .error "Renewable percentage must be between 0 and 100"
  else if ¬(0 ≤ efficiency ∧ efficiency ≤ 100) then
    .error "Efficiency must be between 0 and 100"
  else
    let renewable_fraction := renewable_pct / 100
    let grid_fraction := 1 - renewable_fraction
    let grid_emissions := energy_kwh * grid_fraction * EMISSION_FACTORS_grid_electricity
    let renewable_emissions := energy_kwh * renewable_fraction * EMISSION_FACTORS_solar
    let base_emissions := grid_emissions + renewable_emissions
    let adjusted_emissions := base_emissions * get_efficiency_multiplier efficiency
    let final_emissions := adjusted_emissions * get_industry_factor business_type
    .ok (pyRound2 final_emissions)

/-! ## Concrete sample values for the closed instantiations below -/

/-- The identity function on strings: a concrete, collision-free
instantiation of the hash-primitive parameter. -/
def strId : String → String := fun s => s

/-- A concrete, collision-free tagging hash used in the Merkle instances. -/
def tagHash : String → String := fun s => "#" ++ s

/-- A concrete `token_data` input. -/
def tdEx : TokenData :=
  { sme_id := "SME1", sme_name := "Acme", business_type := "Retail",
    month := "2024-01", energy_kwh := 1200, emissions_kg := 1104,
    emissions_reduced_kg := 96, baseline_kg := 1200,
    timestamp := some "2024-02-01T00:00:00" }

/-- A small concrete token payload. -/
def tokSmall : Token :=
  { token_id := "T1", version := "1.0", sme_id := "S", sme_name := "N",
    business_type := "B", month := "M", energy_kwh := 1, emissions_kg := 1,
    baseline_kg := 1, emissions_reduced_kg := 0, reduction_percentage := 0,
    timestamp := "TS", status := "verified", hash := "H", signature := "SIG" }

/-- A concrete two-block ledger: genesis plus one token block. -/
def chainEx : List Block :=
  buildLedger strId "2024-01-01T00:00:00" [("2024-01-01T00:00:01", BlockData.token tokSmall)]

/-! ## Helper lemmas -/

theorem strId_injective : Function.Injective strId := fun _ _ h => h

/-- The executable floor agrees with the mathematical floor. -/
theorem ratFloor_eq_floor (q : ℚ) : ratFloor q = ⌊q⌋ := by
  rw [ratFloor, Int.fdiv_eq_ediv _ (Int.natCast_nonneg _), Rat.floor_def]

theorem string_append_cancel (A B x y : String) (h : A ++ x ++ B = A ++ y ++ B) : x = y := by
  have hd := congrArg String.data h
  simp only [String.data_append] at hd
  exact String.ext (List.append_cancel_left (List.append_cancel_right hd))

/-- The block preimage determines the payload serialization: two block
strings over the same index, timestamp and previous hash agree only when
the payload serializations agree. -/
theorem block_string_inj_data (idx : Nat) (ts prev : String) (d d' : BlockData)
    (h : block_string idx ts d prev = block_string idx ts d' prev) :
    serialize_data d = serialize_data d' := by
  have hd := congrArg String.data h
  simp only [block_string, String.data_append, List.append_assoc] at hd
  exact String.ext (List.append_cancel_right (List.append_cancel_left hd))

theorem getD_append_lt {α : Type} [Inhabited α] (L M : List α) (i : Nat) (h : i < L.length) :
    (L ++ M).getD i default = L.getD i default := by
  simp [List.getD_eq_getElem?_getD, List.getElem?_append, h]

theorem getD_append_len {α : Type} [Inhabited α] (L : List α) (b : α) :
    (L ++ [b]).getD L.length default = b := by
  simp [List.getD_eq_getElem?_getD, List.getElem?_concat_length]

theorem getD_set_self {α : Type} [Inhabited α] (L : List α) (i : Nat) (b : α)
    (h : i < L.length) : (L.set i b).getD i default = b := by
  simp [List.getD_eq_getElem?_getD, List.getElem?_set, h]

theorem getD_set_ne {α : Type} [Inhabited α] (L : List α) (i j : Nat) (b : α)
    (h : i ≠ j) : (L.set i b).getD j default = L.getD j default := by
  simp [List.getD_eq_getElem?_getD, List.getElem?_set_ne h]

theorem getLastD_eq_getD {α : Type} [Inhabited α] (L : List α) :
    L.getLastD default = L.getD (L.length - 1) default := by
  rw [List.getLastD_eq_getLast?, List.getLast?_eq_getElem?, List.getD_eq_getElem?_getD]

theorem blockOkAt_iff (sha : String → String) (chain : List Block) (i : Nat) :
    blockOkAt sha chain i = true ↔
      (chain.getD i default).hash = calculate_hash sha (chain.getD i default) ∧
      (chain.getD i default).previous_hash = (chain.getD (i - 1) default).hash := by
  simp [blockOkAt, Bool.and_eq_true, beq_iff_eq]

theorem chainValid_okAt (sha : String → String) (chain : List Block)
    (h : is_chain_valid sha chain = true) (i : Nat) (h1 : 1 ≤ i) (h2 : i < chain.length) :
    blockOkAt sha chain i = true := by
  unfold is_chain_valid at h
  rw [Bool.and_eq_true] at h
  exact List.all_eq_true.mp h.2 i (List.mem_range'_1.mpr ⟨h1, by omega⟩)

theorem chainInvalid_of_okAt_false (sha : String → String) (chain : List Block) (i : Nat)
    (h1 : 1 ≤ i) (h2 : i < chain.length) (h : blockOkAt sha chain i = false) :
    is_chain_valid sha chain = false := by
  unfold is_chain_valid
  have hall : (List.range' 1 (chain.length - 1)).all (blockOkAt sha chain) = false :=
    List.all_eq_false.mpr ⟨i, List.mem_range'_1.mpr ⟨h1, by omega⟩, by simp [h]⟩
  simp [hall]

/-- The invariant maintained by ledger construction. -/
structure GoodChain (sha : String → String) (L : List Block) : Prop where
  ne : L ≠ []
  idx : ∀ i, i < L.length → (L.getD i default).index = i
  hashOk : ∀ i, i < L.length → (L.getD i default).hash = calculate_hash sha (L.getD i default)
  link : ∀ i, 1 ≤ i → i < L.length →
    (L.getD i default).previous_hash = (L.getD (i - 1) default).hash
  gen_data : (L.getD 0 default).data = BlockData.genesis
  gen_prev : (L.getD 0 default).previous_hash = "0"

theorem goodChain_init (sha : String → String) (ts : String) :
    GoodChain sha (initLedger sha ts) := by
  refine ⟨by simp [initLedger], ?_, ?_, ?_, rfl, rfl⟩
  · intro i hi
    have : i = 0 := by simp [initLedger] at hi; omega
    subst this; rfl
  · intro i hi
    have : i = 0 := by simp [initLedger] at hi; omega
    subst this; rfl
  · intro i hi1 hi2
    simp [initLedger] at hi2; omega

theorem goodChain_snoc (sha : String → String) (ts : String) (d : BlockData)
    (L : List Block) (h : GoodChain sha L) : GoodChain sha (add_block sha L ts d) := by
  have hpos : 0 < L.length := List.length_pos.mpr h.ne
  have hlen : (add_block sha L ts d).length = L.length + 1 := by simp [add_block]
  unfold add_block
  refine ⟨by simp, ?_, ?_, ?_, ?_, ?_⟩
  · intro i hi
    simp only [List.length_append, List.length_cons, List.length_nil] at hi
    rcases Nat.lt_or_ge i L.length with hlt | hge
    · rw [getD_append_lt _ _ _ hlt]; exact h.idx i hlt
    · have : i = L.length := by omega
      subst this
      rw [getD_append_len]; simp [mkBlock]
  · intro i hi
    simp only [List.length_append, List.length_cons, List.length_nil] at hi
    rcases Nat.lt_or_ge i L.length with hlt | hge
    · rw [getD_append_lt _ _ _ hlt]; exact h.hashOk i hlt
    · have : i = L.length := by omega
      subst this
      rw [getD_append_len]; simp [mkBlock, calculate_hash]
  · intro i hi1 hi2
    simp only [List.length_append, List.length_cons, List.length_nil] at hi2
    rcases Nat.lt_or_ge i L.length with hlt | hge
    · have hprev : i - 1 < L.length := by omega
      rw [getD_append_lt _ _ _ hlt, getD_append_lt _ _ _ hprev]
      exact h.link i hi1 hlt
    · have : i = L.length := by omega
      subst this
      rw [getD_append_len, getD_append_lt _ _ _ (by omega : L.length - 1 < L.length)]
      show (L.getLastD default).hash = _
      rw [getLastD_eq_getD]
  · rw [getD_append_lt _ _ _ hpos]; exact h.gen_data
  · rw [getD_append_lt _ _ _ hpos]; exact h.gen_prev

theorem goodChain_foldl (sha : String → String) (ops : List (String × BlockData)) :
    ∀ C : List Block, GoodChain sha C →
      GoodChain sha (ops.foldl (fun c op => add_block sha c op.1 op.2) C) := by
  induction ops with
  | nil => intro C h; exact h
  | cons op rest ih =>
    intro C h
    exact ih _ (goodChain_snoc sha op.1 op.2 C h)

theorem goodChain_build (sha : String → String) (ts0 : String)
    (ops : List (String × BlockData)) : GoodChain sha (buildLedger sha ts0 ops) :=
  goodChain_foldl sha ops _ (goodChain_init sha ts0)

theorem goodChain_chainValid (sha : String → String) (L : List Block)
    (h : GoodChain sha L) : is_chain_valid sha L = true := by
  unfold is_chain_valid
  have h1 : L.isEmpty = false := List.isEmpty_eq_false.mpr h.ne
  rw [h1]
  simp only [Bool.not_false, Bool.true_and]
  apply List.all_eq_true.mpr
  intro i hi
  obtain ⟨hi1, hi2⟩ := List.mem_range'_1.mp hi
  have hpos : 0 < L.length := List.length_pos.mpr h.ne
  have hi2' : i < L.length := by omega
  exact (blockOkAt_iff sha L i).mpr ⟨h.hashOk i hi2', h.link i hi1 hi2'⟩

theorem buildLedger_length (sha : String → String) (ts0 : String)
    (ops : List (String × BlockData)) : (buildLedger sha ts0 ops).length = ops.length + 1 := by
  have key : ∀ C : List Block,
      (ops.foldl (fun c op => add_block sha c op.1 op.2) C).length = C.length + ops.length := by
    induction ops with
    | nil => intro C; simp
    | cons op rest ih =>
      intro C
      simp only [List.foldl_cons]
      rw [ih (add_block sha C op.1 op.2)]
      simp [add_block]; omega
  rw [buildLedger, key (initLedger sha ts0)]
  simp [initLedger]; omega

theorem tamper_data_invalidates (sha : String → String) (hinj : Function.Injective sha)
    (chain : List Block) (hv : is_chain_valid sha chain = true) (i : Nat)
    (h1 : 1 ≤ i) (h2 : i < chain.length) (d : BlockData)
    (hd : serialize_data d ≠ serialize_data (chain.getD i default).data) :
    is_chain_valid sha (setBlockData chain i d) = false := by
  have hok := (blockOkAt_iff sha chain i).mp (chainValid_okAt sha chain hv i h1 h2)
  have hlen : (setBlockData chain i d).length = chain.length := by
    simp [setBlockData, List.length_set]
  apply chainInvalid_of_okAt_false sha _ i h1 (by omega)
  have hcur : (setBlockData chain i d).getD i default =
      { chain.getD i default with data := d } :=
    getD_set_self _ _ _ h2
  have hne : (chain.getD i default).hash ≠
      calculate_hash sha { chain.getD i default with data := d } := by
    rw [hok.1]
    intro hEq
    exact hd (block_string_inj_data _ _ _ _ _ (hinj hEq)).symm
  apply Bool.eq_false_iff.mpr
  intro habs
  unfold blockOkAt at habs
  rw [Bool.and_eq_true] at habs
  obtain ⟨hA, _⟩ := habs
  rw [hcur, beq_iff_eq] at hA
  exact hne hA

theorem tamper_prev_invalidates (sha : String → String)
    (chain : List Block) (hv : is_chain_valid sha chain = true) (i : Nat)
    (h1 : 1 ≤ i) (h2 : i < chain.length) (p : String)
    (hp : p ≠ (chain.getD i default).previous_hash) :
    is_chain_valid sha (setBlockPrev chain i p) = false := by
  have hok := (blockOkAt_iff sha chain i).mp (chainValid_okAt sha chain hv i h1 h2)
  have hlen : (setBlockPrev chain i p).length = chain.length := by
    simp [setBlockPrev, List.length_set]
  apply chainInvalid_of_okAt_false sha _ i h1 (by omega)
  have hcur : (setBlockPrev chain i p).getD i default =
      { chain.getD i default with previous_hash := p } :=
    getD_set_self _ _ _ h2
  have hprev : (setBlockPrev chain i p).getD (i - 1) default =
      chain.getD (i - 1) default :=
    getD_set_ne _ _ _ _ (by omega)
  apply Bool.eq_false_iff.mpr
  intro habs
  unfold blockOkAt at habs
  rw [Bool.and_eq_true] at habs
  obtain ⟨_, hB⟩ := habs
  rw [hcur, hprev, beq_iff_eq] at hB
  exact hp (hB.trans hok.2.symm)

/-! ## Claim C1: ledger construction invariants -/

/-- Claim C1: for every ledger obtained by initializing (creating the
genesis block) and then performing any finite sequence of appends, block 0
carries the fixed genesis marker payload and `previous_hash = "0"`, the
block indices are exactly `0..n-1` in order with no gaps, every block
`i > 0` has `previous_hash` equal to block `i-1`'s stored hash, and
`is_valid()` returns true. -/
theorem ledger_construction_invariants (sha : String → String) (ts0 : String)
    (ops : List (String × BlockData)) :
    ((buildLedger sha ts0 ops).getD 0 default).data = BlockData.genesis ∧
    ((buildLedger sha ts0 ops).getD 0 default).previous_hash = "0" ∧
    (buildLedger sha ts0 ops).length = ops.length + 1 ∧
    (∀ i, i < (buildLedger sha ts0 ops).length →
      ((buildLedger sha ts0 ops).getD i default).index = i) ∧
    (∀ i, 1 ≤ i → i < (buildLedger sha ts0 ops).length →
      ((buildLedger sha ts0 ops).getD i default).previous_hash =
        ((buildLedger sha ts0 ops).getD (i - 1) default).hash) ∧
    is_chain_valid sha (buildLedger sha ts0 ops) = true := by
  have h := goodChain_build sha ts0 ops
  exact ⟨h.gen_data, h.gen_prev, buildLedger_length sha ts0 ops, h.idx, h.link,
    goodChain_chainValid sha _ h⟩

/-- Closed instance of claim C1 on a concrete two-append ledger. -/
theorem ledger_construction_invariants_witness :
    ((buildLedger strId "g" [("t1", BlockData.token tokSmall), ("t2", BlockData.genesis)]).getD 1
      default).index = 1 ∧
    is_chain_valid strId
      (buildLedger strId "g" [("t1", BlockData.token tokSmall), ("t2", BlockData.genesis)]) =
      true := by
  have h := ledger_construction_invariants strId "g"
    [("t1", BlockData.token tokSmall), ("t2", BlockData.genesis)]
  exact ⟨h.2.2.2.1 1 (by rw [h.2.2.1]; simp), h.2.2.2.2.2⟩

/-! ## Claim C2: tamper detection by `is_chain_valid` -/

set_option maxRecDepth 100000 in
/-- Counterexample to claim C2 as stated: on a freshly initialized (hence
valid) ledger, overwriting the genesis block's `data` with a different
payload (its canonical serialization differs) leaves `is_chain_valid`
true, because the validation loop starts at index 1 and never recomputes
block 0's own hash. -/
theorem genesis_tamper_undetected :
    is_chain_valid strId (initLedger strId "g") = true ∧
    serialize_data (BlockData.token tokSmall) ≠
      serialize_data (((initLedger strId "g").getD 0 default).data) ∧
    is_chain_valid strId
      (setBlockData (initLedger strId "g") 0 (BlockData.token tokSmall)) = true := by
  refine ⟨by with_unfolding_all decide, by with_unfolding_all decide,
    by with_unfolding_all decide⟩

/-- Claim C2 as amended: on a valid ledger, overwriting the `data` of any
block at index `i ≥ 1` with a payload whose canonical serialization
differs (the stored hash untouched) makes `is_chain_valid` false provided
the hash primitive is collision-free (injective), and overwriting the
`previous_hash` link of any block at index `i ≥ 1` with a different
string makes `is_chain_valid` false unconditionally; mutations of the
genesis block (index 0) are not detected. -/
theorem tamper_detection_after_genesis (sha : String → String)
    (hinj : Function.Injective sha) (chain : List Block)
    (hv : is_chain_valid sha chain = true) (i : Nat) (h1 : 1 ≤ i) (h2 : i < chain.length) :
    (∀ d : BlockData, serialize_data d ≠ serialize_data (chain.getD i default).data →
      is_chain_valid sha (setBlockData chain i d) = false) ∧
    (∀ p : String, p ≠ (chain.getD i default).previous_hash →
      is_chain_valid sha (setBlockPrev chain i p) = false) :=
  ⟨fun d hd => tamper_data_invalidates sha hinj chain hv i h1 h2 d hd,
   fun p hp => tamper_prev_invalidates sha chain hv i h1 h2 p hp⟩

set_option maxRecDepth 100000 in
/-- Closed instance of the amended claim C2 on a concrete two-block
ledger, tampering with block 1. -/
theorem tamper_detection_after_genesis_witness :
    is_chain_valid strId chainEx = true ∧
    serialize_data BlockData.genesis ≠ serialize_data ((chainEx.getD 1 default).data) ∧
    is_chain_valid strId (setBlockData chainEx 1 BlockData.genesis) = false ∧
    "X" ≠ (chainEx.getD 1 default).previous_hash ∧
    is_chain_valid strId (setBlockPrev chainEx 1 "X") = false := by
  have hv : is_chain_valid strId chainEx = true := by with_unfolding_all decide
  have h := tamper_detection_after_genesis strId strId_injective chainEx hv 1
    (by omega) (by with_unfolding_all decide)
  exact ⟨hv, by with_unfolding_all decide, h.1 BlockData.genesis (by with_unfolding_all decide),
    by with_unfolding_all decide, h.2 "X" (by with_unfolding_all decide)⟩

/-! ## Claim C3: two-run determinism of the token hash -/

theorem generate_token_congr (sha : String → String) (td : TokenData)
    (ts suffix1 suffix2 now1 now2 : String) (hts : td.timestamp = some ts)
    (hid : generate_token_id td suffix1 = generate_token_id td suffix2) :
    generate_token sha suffix1 now1 td = generate_token sha suffix2 now2 td := by
  unfold generate_token
  rw [hid, hts]
  simp only [Option.getD_some]

set_option maxRecDepth 100000 in
/-- Counterexample to claim C3 as stated: two runs of `generate_token` on
the same input field set with a fixed timestamp, differing only in the
fresh random token-id suffix, produce different hashes, because the
randomly suffixed `token_id` is part of the hash preimage. -/
theorem token_hash_differs_across_runs :
    (generate_token strId "aaaa1111" "N" tdEx).hash ≠
      (generate_token strId "bbbb2222" "N" tdEx).hash := by
  with_unfolding_all decide

/-- Claim C3 as amended: for a fixed input field set with a fixed
timestamp, two runs of `generate_token` produce the same hash whenever
they synthesize the same `token_id` (in particular whenever the random
suffixes agree); the hash is a deterministic function of the input
fields, the timestamp and the generated token id. -/
theorem token_hash_two_runs_same_id (sha : String → String) (td : TokenData)
    (ts suffix1 suffix2 now1 now2 : String) (hts : td.timestamp = some ts)
    (hid : generate_token_id td suffix1 = generate_token_id td suffix2) :
    (generate_token sha suffix1 now1 td).hash = (generate_token sha suffix2 now2 td).hash :=
  congrArg Token.hash (generate_token_congr sha td ts suffix1 suffix2 now1 now2 hts hid)

set_option maxRecDepth 100000 in
/-- Closed instance of the amended claim C3: the suffixes "a" and "A"
differ but upper-case to the same token id, and the two runs agree. -/
theorem token_hash_two_runs_same_id_witness :
    tdEx.timestamp = some "2024-02-01T00:00:00" ∧
    generate_token_id tdEx "a" = generate_token_id tdEx "A" ∧
    (generate_token strId "a" "N1" tdEx).hash = (generate_token strId "A" "N2" tdEx).hash := by
  refine ⟨rfl, by with_unfolding_all decide, ?_⟩
  exact token_hash_two_runs_same_id strId tdEx "2024-02-01T00:00:00" "a" "A" "N1" "N2" rfl
    (by with_unfolding_all decide)

/-! ## Claim C4: the two integrity fields and their preimages -/

/-- Claim C4: a generated token's `hash` is the digest of the sorted-key
canonical JSON of all its fields except `hash` and `signature`, and its
`signature` is the digest of `token_id ++ timestamp ++ hash`; both
integrity fields are excluded from their own preimage. -/
theorem token_integrity_fields (sha : String → String) (suffix now : String) (td : TokenData) :
    (generate_token sha suffix now td).hash =
      sha (token_core_json (generate_token sha suffix now td)) ∧
    (generate_token sha suffix now td).signature =
      sha ((generate_token sha suffix now td).token_id ++
        (generate_token sha suffix now td).timestamp ++
        (generate_token sha suffix now td).hash) :=
  ⟨rfl, rfl⟩

/-! ## Claim C5: verify_token round trip -/

/-- Claim C5: `verify_token` accepts every token produced by
`generate_token` (the recomputed digest over the non-integrity fields
reproduces the stored `hash`), and on any mismatch it returns false
rather than raising; in this purely functional model it returns only a
boolean and cannot mutate the token it checks. -/
theorem verify_token_correct (sha : String → String) (suffix now : String) (td : TokenData) :
    verify_token sha (generate_token sha suffix now td) = true ∧
    (∀ t : Token, t.hash ≠ generate_hash sha t → verify_token sha t = false) := by
  constructor
  · exact beq_iff_eq.mpr rfl
  · intro t h
    exact beq_eq_false_iff_ne.mpr h

set_option maxRecDepth 100000 in
/-- Closed instance of claim C5: a generated token verifies, and the same
token with a tampered stored hash is rejected with `false`. -/
theorem verify_token_correct_witness :
    verify_token strId (generate_token strId "ab12cd34" "N" tdEx) = true ∧
    verify_token strId
      { generate_token strId "ab12cd34" "N" tdEx with hash := "tampered" } = false := by
  have h := verify_token_correct strId "ab12cd34" "N" tdEx
  exact ⟨h.1, h.2 _ (by with_unfolding_all decide)⟩

/-! ## Merkle lemmas and claims C6, C7 -/

theorem pairCombine_length (sha : String → String) :
    ∀ l : List String, (pairCombine sha l).length = l.length / 2
  | [] => by simp [pairCombine]
  | [a] => by simp [pairCombine]
  | a :: b :: rest => by
    have ih := pairCombine_length sha rest
    simp [pairCombine, ih]
    omega

theorem appPairs_length (sha : String → String) :
    ∀ l : List String, (appPairs sha l).length = (l.length + 1) / 2
  | [] => by simp [appPairs]
  | [a] => by simp [appPairs]
  | a :: b :: rest => by
    have ih := appPairs_length sha rest
    simp [appPairs, ih]
    omega

theorem padOdd_even (hs : List String) (h : hs.length % 2 = 0) : padOdd hs = hs := by
  simp [padOdd, h]

theorem padOdd_odd (hs : List String) (h : hs.length % 2 = 1) :
    padOdd hs = hs ++ [hs.getLastD ""] := by
  simp [padOdd, h]

theorem getLastD_cons_of_ne {α : Type} (a : α) (l : List α) (d : α) (h : l ≠ []) :
    (a :: l).getLastD d = l.getLastD d := by
  cases l with
  | nil => exact absurd rfl h
  | cons b l' =>
    rw [List.getLastD_eq_getLast?, List.getLastD_eq_getLast?, List.getLast?_cons_cons]

/-- The registry-level one-step level construction equals the ledger-level
pad-then-pair construction. -/
theorem appPairs_eq (sha : String → String) :
    ∀ hs : List String, appPairs sha hs = pairCombine sha (padOdd hs)
  | [] => by simp [appPairs, padOdd, pairCombine]
  | [a] => by
    have hpad : padOdd [a] = [a, a] := by simp [padOdd]
    simp [appPairs, hpad, pairCombine]
  | a :: b :: rest => by
    have ih := appPairs_eq sha rest
    by_cases hpar : rest.length % 2 = 0
    · have h1 : padOdd (a :: b :: rest) = a :: b :: rest :=
        padOdd_even _ (by simp [Nat.add_mod, hpar])
      have h2 : padOdd rest = rest := padOdd_even rest hpar
      rw [h2] at ih
      simp [appPairs, pairCombine, h1, ih]
    · have hodd : rest.length % 2 = 1 := by omega
      have hne : rest ≠ [] := by
        intro he; subst he; simp at hodd
      have hlast : (a :: b :: rest).getLastD "" = rest.getLastD "" := by
        rw [getLastD_cons_of_ne a (b :: rest) _ (by simp),
          getLastD_cons_of_ne b rest _ hne]
      have h1 : padOdd (a :: b :: rest) = a :: b :: (rest ++ [rest.getLastD ""]) := by
        rw [padOdd_odd _ (by simp [Nat.add_mod, hodd]), hlast]
        simp
      have h2 : padOdd rest = rest ++ [rest.getLastD ""] := padOdd_odd rest hodd
      rw [h1, ← h2]
      simp [appPairs, pairCombine, ih]

theorem appPairs_ne_nil (sha : String → String) (hs : List String) (h : 2 ≤ hs.length) :
    appPairs sha hs ≠ [] := by
  have hl := appPairs_length sha hs
  intro he
  rw [he] at hl
  simp at hl
  omega

/-- The iterative ledger-level level fold computes exactly the recursive
registry-level root on every nonempty list. -/
theorem merkleFix_eq_create (sha : String → String) (hs : List String) (hne : hs ≠ []) :
    merkleFix sha hs = [create_merkle_root sha hs] := by
  rw [merkleFix, create_merkle_root]
  by_cases h1 : hs.length ≤ 1
  · rw [dif_pos h1]
    have hl1 : hs.length = 1 := by
      have := List.length_pos.mpr hne; omega
    obtain ⟨a, ha⟩ := List.length_eq_one.mp hl1
    subst ha
    simp
  · rw [dif_neg h1]
    have h2 : 2 ≤ hs.length := by omega
    have hPCne : pairCombine sha (padOdd hs) ≠ [] := by
      rw [← appPairs_eq]
      exact appPairs_ne_nil sha hs h2
    have ih := merkleFix_eq_create sha (pairCombine sha (padOdd hs)) hPCne
    rw [ih, dif_neg (by omega : ¬hs.length = 0), dif_neg (by omega : ¬hs.length = 1),
      ← appPairs_eq]
termination_by hs.length
decreasing_by
  have hc := pairCombine_length sha (padOdd hs)
  have hp : (padOdd hs).length ≤ hs.length + 1 := by
    unfold padOdd; split <;> simp
  omega

theorem merkleIter_eq_create (sha : String → String) (hs : List String) (hne : hs ≠ []) :
    merkleIter sha hs = some (create_merkle_root sha hs) := by
  rw [merkleIter, merkleFix_eq_create sha hs hne]
  rfl

theorem merkleIter_single (sha : String → String) (a : String) :
    merkleIter sha [a] = some a := by
  rw [merkleIter, merkleFix]
  simp

/-- Counterexample to claim C6 as stated: on a zero-element input the
ledger-level Merkle computation yields no root (`get_merkle_root` returns
`None` on an empty chain; the bare loop would fault on `hashes[0]`),
rather than the hash of the fixed empty-marker string. -/
theorem merkle_zero_element_divergence :
    get_merkle_root tagHash ([] : List Block) = none ∧
    merkleIter tagHash ([] : List String) = none ∧
    (none : Option String) ≠ some (tagHash "empty") := by
  refine ⟨by simp [get_merkle_root], ?_, by simp⟩
  rw [merkleIter, merkleFix]
  simp

/-- Claim C6 as amended: the ledger-level Merkle root follows the exact
recipe — start from the ordered block hashes, duplicate the last element
when the level count is odd, replace adjacent pairs by the digest of the
concatenated hex strings, repeat until one hash remains; a one-element
level yields that element unchanged; on a zero-element input the
ledger-level computation yields no root (`None`), while the hash of the
fixed empty-marker string `"empty"` is what the registry-level
`create_merkle_root` returns there. -/
theorem merkle_root_recipe (sha : String → String) :
    get_merkle_root sha [] = none ∧
    (∀ chain : List Block, chain ≠ [] →
      get_merkle_root sha chain = merkleIter sha (chain.map Block.hash)) ∧
    (∀ x : String, merkleIter sha [x] = some x) ∧
    (∀ hs : List String, 2 ≤ hs.length →
      merkleFix sha hs = merkleFix sha (pairCombine sha (padOdd hs))) ∧
    (∀ hs : List String, hs.length % 2 = 1 → padOdd hs = hs ++ [hs.getLastD ""]) ∧
    (∀ hs : List String, hs.length % 2 = 0 → padOdd hs = hs) ∧
    (∀ a b rest, pairCombine sha (a :: b :: rest) = sha (a ++ b) :: pairCombine sha rest) ∧
    (∀ hs : List String, hs ≠ [] → ∃ r, merkleIter sha hs = some r) ∧
    create_merkle_root sha [] = sha "empty" := by
  refine ⟨by simp [get_merkle_root], ?_, merkleIter_single sha, ?_, padOdd_odd, padOdd_even,
    fun a b rest => rfl, ?_, ?_⟩
  · intro chain h
    simp [get_merkle_root, List.isEmpty_eq_false.mpr h]
  · intro hs h
    rw [merkleFix, dif_neg (by omega)]
  · intro hs h
    exact ⟨_, merkleIter_eq_create sha hs h⟩
  · rw [create_merkle_root]
    simp

/-- Closed instance of the amended claim C6: a one-element level returns
the element, the empty chain has no root, and a three-element level
reaches a single root. -/
theorem merkle_root_recipe_witness :
    merkleIter tagHash ["h1"] = some "h1" ∧
    get_merkle_root tagHash [] = none ∧
    (∃ r, merkleIter tagHash ["a", "b", "c"] = some r) := by
  have h := merkle_root_recipe tagHash
  exact ⟨h.2.2.1 "h1", h.1, h.2.2.2.2.2.2.2.1 ["a", "b", "c"] (by simp)⟩

/-- Counterexample to claim C7 as stated: on the empty list the two
Merkle computations disagree — the ledger-level loop yields no root,
the registry-level recursion yields the digest of `"empty"`. -/
theorem ledger_registry_merkle_empty_disagree :
    merkleIter tagHash ([] : List String) = none ∧
    create_merkle_root tagHash [] = tagHash "empty" ∧
    merkleIter tagHash ([] : List String) ≠
      some (create_merkle_root tagHash ([] : List String)) := by
  have h1 : merkleIter tagHash ([] : List String) = none := by
    rw [merkleIter, merkleFix]; simp
  have h2 : create_merkle_root tagHash [] = tagHash "empty" := by
    rw [create_merkle_root]; simp
  refine ⟨h1, h2, ?_⟩
  rw [h1, h2]
  simp

/-- Claim C7 as amended: on every nonempty list of hash strings the
ledger-level iterative Merkle computation and the registry-level
recursive `create_merkle_root` yield the same root (they differ only on
the empty list, where the former yields no root). -/
theorem ledger_registry_merkle_agree (sha : String → String) (hs : List String)
    (hne : hs ≠ []) :
    merkleIter sha hs = some (create_merkle_root sha hs) :=
  merkleIter_eq_create sha hs hne

/-- Closed instance of the amended claim C7 on a three-element list. -/
theorem ledger_registry_merkle_agree_witness :
    merkleIter tagHash ["a", "b", "c"] =
      some (create_merkle_root tagHash ["a", "b", "c"]) :=
  ledger_registry_merkle_agree tagHash ["a", "b", "c"] (by simp)

/-! ## Claims C8, C9: the emissions calculation -/

/-- Claim C8: `calculate_emissions` fails with a validation error exactly
when `energy_kwh < 0`, or `renewable_pct` is outside `[0,100]`, or
`efficiency` is outside `[0,100]`; on every in-range input it returns a
value (out-of-range arguments are rejected, never silently clamped). -/
theorem calculate_emissions_validation (energy_kwh : ℚ) (business_type : String)
    (renewable_pct efficiency : ℚ) :
    ((∃ msg, calculate_emissions energy_kwh business_type renewable_pct efficiency =
        .error msg) ↔
      (energy_kwh < 0 ∨ renewable_pct < 0 ∨ 100 < renewable_pct ∨
        efficiency < 0 ∨ 100 < efficiency)) ∧
    (0 ≤ energy_kwh → 0 ≤ renewable_pct → renewable_pct ≤ 100 →
      0 ≤ efficiency → efficiency ≤ 100 →
      ∃ v, calculate_emissions energy_kwh business_type renewable_pct efficiency = .ok v) := by
  constructor
  · constructor
    · rintro ⟨msg, hmsg⟩
      by_contra hcon
      push_neg at hcon
      obtain ⟨c1, c2, c3, c4, c5⟩ := hcon
      unfold calculate_emissions at hmsg
      rw [if_neg (not_lt.mpr c1), if_neg (not_not.mpr ⟨c2, c3⟩),
        if_neg (not_not.mpr ⟨c4, c5⟩)] at hmsg
      exact absurd hmsg (by simp)
    · intro hcases
      unfold calculate_emissions
      by_cases hb1 : energy_kwh < 0
      · rw [if_pos hb1]; exact ⟨_, rfl⟩
      · rw [if_neg hb1]
        by_cases hb2 : ¬(0 ≤ renewable_pct ∧ renewable_pct ≤ 100)
        · rw [if_pos hb2]; exact ⟨_, rfl⟩
        · rw [if_neg hb2]
          by_cases hb3 : ¬(0 ≤ efficiency ∧ efficiency ≤ 100)
          · rw [if_pos hb3]; exact ⟨_, rfl⟩
          · exfalso
            rw [not_not] at hb2 hb3
            rw [not_lt] at hb1
            rcases hcases with hx | hx | hx | hx | hx <;>
              linarith [hb2.1, hb2.2, hb3.1, hb3.2]
  · intro he hr1 hr2 hf1 hf2
    unfold calculate_emissions
    rw [if_neg (not_lt.mpr he), if_neg (not_not.mpr ⟨hr1, hr2⟩),
      if_neg (not_not.mpr ⟨hf1, hf2⟩)]
    exact ⟨_, rfl⟩

/-- Closed instance of claim C8: one in-range input succeeds, one
negative-energy input fails. -/
theorem calculate_emissions_validation_witness :
    (∃ v, calculate_emissions 500 "Retail" 30 90 = .ok v) ∧
    (∃ msg, calculate_emissions (-1) "Retail" 30 90 = .error msg) := by
  have h1 := calculate_emissions_validation 500 "Retail" 30 90
  have h2 := calculate_emissions_validation (-1) "Retail" 30 90
  exact ⟨h1.2 (by norm_num) (by norm_num) (by norm_num) (by norm_num) (by norm_num),
    h2.1.mpr (Or.inl (by norm_num))⟩

/-- Claim C9: on in-range inputs the result is
`round((energy * (1 - renewable_pct/100) * grid_factor +
energy * (renewable_pct/100) * renewable_factor) * m, 2)` with the
efficiency multiplier banded (>= 85 gives 0.85 < 1, >= 70 gives exactly 1,
otherwise 1.2 > 1), and the business-type argument never changes the
result (its industry multiplier is fixed at 1). -/
theorem calculate_emissions_formula (energy_kwh : ℚ) (business_type : String)
    (renewable_pct efficiency : ℚ) (he : 0 ≤ energy_kwh) (hr1 : 0 ≤ renewable_pct)
    (hr2 : renewable_pct ≤ 100) (hf1 : 0 ≤ efficiency) (hf2 : efficiency ≤ 100) :
    calculate_emissions energy_kwh business_type renewable_pct efficiency =
      .ok (pyRound2 ((energy_kwh * (1 - renewable_pct / 100) * EMISSION_FACTORS_grid_electricity +
        energy_kwh * (renewable_pct / 100) * EMISSION_FACTORS_solar) *
        get_efficiency_multiplier efficiency)) ∧
    (85 ≤ efficiency → get_efficiency_multiplier efficiency = 85/100) ∧
    ((85 : ℚ)/100 < 1) ∧
    (70 ≤ efficiency → efficiency < 85 → get_efficiency_multiplier efficiency = 1) ∧
    (efficiency < 70 → get_efficiency_multiplier efficiency = 12/10) ∧
    ((1 : ℚ) < 12/10) ∧
    (∀ bt : String, calculate_emissions energy_kwh bt renewable_pct efficiency =
      calculate_emissions energy_kwh business_type renewable_pct efficiency) := by
  refine ⟨?_, ?_, by norm_num, ?_, ?_, by norm_num, fun bt => rfl⟩
  · unfold calculate_emissions
    rw [if_neg (not_lt.mpr he), if_neg (not_not.mpr ⟨hr1, hr2⟩),
      if_neg (not_not.mpr ⟨hf1, hf2⟩)]
    simp only [get_industry_factor, mul_one]
  · intro hx
    unfold get_efficiency_multiplier
    rw [if_pos hx]
  · intro hx1 hx2
    unfold get_efficiency_multiplier
    rw [if_neg (by linarith), if_pos hx1]
  · intro hx
    unfold get_efficiency_multiplier
    rw [if_neg (by linarith), if_neg (by linarith)]

/-- Closed instance of claim C9: the documented end-to-end input
(10000 kWh, grid fraction 1, efficiency 80 in the neutral band). -/
theorem calculate_emissions_formula_witness :
    calculate_emissions 10000 "default" 0 80 =
      .ok (pyRound2 ((10000 * (1 - 0 / 100) * EMISSION_FACTORS_grid_electricity +
        10000 * (0 / 100) * EMISSION_FACTORS_solar) * get_efficiency_multiplier 80)) ∧
    get_efficiency_multiplier 80 = 1 := by
  have h := calculate_emissions_formula 10000 "default" 0 80
    (by norm_num) (by norm_num) (by norm_num) (by norm_num) (by norm_num)
  exact ⟨h.1, h.2.2.2.1 (by norm_num) (by norm_num)⟩

/-! ## Claim C10: proof of inclusion -/

theorem findTokenAux_isSome (th : String) :
    ∀ (chain : List Block) (n : Nat),
      (findTokenAux th n chain).isSome = verify_token_by_hash chain th := by
  intro chain
  induction chain with
  | nil => intro n; rfl
  | cons b rest ih =>
    intro n
    by_cases hc : dataHash b.data = some th
    · simp [findTokenAux, verify_token_by_hash, hc]
    · simp only [findTokenAux, verify_token_by_hash, beq_iff_eq, if_neg hc]
      exact ih (n + 1)

theorem findTokenAux_sound (th : String) :
    ∀ (chain : List Block) (n i : Nat) (b : Block),
      findTokenAux th n chain = some (i, b) →
      n ≤ i ∧ i - n < chain.length ∧ chain.getD (i - n) default = b ∧
        dataHash b.data = some th := by
  intro chain
  induction chain with
  | nil => intro n i b h; simp [findTokenAux] at h
  | cons hd rest ih =>
    intro n i b h
    rw [findTokenAux] at h
    split at h
    next hc =>
      simp only [Option.some.injEq, Prod.mk.injEq] at h
      obtain ⟨rfl, rfl⟩ := h
      exact ⟨Nat.le_refl n, by simp, by simp, beq_iff_eq.mp hc⟩
    next hc =>
      obtain ⟨h1, h2, h3, h4⟩ := ih (n + 1) i b h
      refine ⟨by omega, by simp only [List.length_cons]; omega, ?_, h4⟩
      have hk : i - n = (i - (n + 1)) + 1 := by omega
      rw [hk, List.getD_cons_succ]
      exact h3

theorem verify_token_by_hash_iff (chain : List Block) (h : String) :
    verify_token_by_hash chain h = true ↔ ∃ b ∈ chain, dataHash b.data = some h := by
  induction chain with
  | nil => simp [verify_token_by_hash]
  | cons b rest ih =>
    by_cases hc : dataHash b.data = some h <;>
      simp [verify_token_by_hash, hc, ih]

/-- Claim C10: `proof_of_inclusion` returns `verified := false` exactly
when no block payload carries the hash (agreeing with
`verify_token_by_hash`), and otherwise the first containing block's
index, hash, previous hash and timestamp together with the current Merkle
root and chain-validity flag; a miss is an ordinary false result, never
an exception (the model is a total function). -/
theorem proof_of_inclusion_spec (sha : String → String) (chain : List Block) (h : String) :
    ((get_proof_of_inclusion sha chain h).verified = verify_token_by_hash chain h) ∧
    (verify_token_by_hash chain h = true ↔ ∃ b ∈ chain, dataHash b.data = some h) ∧
    (verify_token_by_hash chain h = false →
      get_proof_of_inclusion sha chain h =
        { verified := false, message := some "Token not found in blockchain" }) ∧
    (verify_token_by_hash chain h = true →
      ∃ i b, findTokenBlock chain h = some (i, b)) ∧
    (∀ i b, findTokenBlock chain h = some (i, b) →
      i < chain.length ∧ chain.getD i default = b ∧ dataHash b.data = some h ∧
      get_proof_of_inclusion sha chain h =
        { verified := true, block_index := some i, block_hash := some b.hash,
          previous_hash := some b.previous_hash, timestamp := some b.timestamp,
          merkle_root := some (get_merkle_root sha chain),
          chain_valid := some (is_chain_valid sha chain) }) := by
  have hfind : (findTokenBlock chain h).isSome = verify_token_by_hash chain h :=
    findTokenAux_isSome h chain 0
  refine ⟨?_, verify_token_by_hash_iff chain h, ?_, ?_, ?_⟩
  · unfold get_proof_of_inclusion
    cases hf : findTokenBlock chain h with
    | none =>
      rw [hf] at hfind
      simpa using hfind.symm
    | some p =>
      obtain ⟨i, b⟩ := p
      rw [hf] at hfind
      simpa using hfind.symm
  · intro hmiss
    unfold get_proof_of_inclusion
    cases hf : findTokenBlock chain h with
    | none => rfl
    | some p =>
      rw [hf] at hfind
      rw [hmiss] at hfind
      simp at hfind
  · intro hhit
    cases hf : findTokenBlock chain h with
    | none =>
      rw [hf] at hfind
      rw [hhit] at hfind
      simp at hfind
    | some p => exact ⟨p.1, p.2, rfl⟩
  · intro i b hf
    obtain ⟨hn, hlt, hgetD, hdh⟩ := findTokenAux_sound h chain 0 i b hf
    rw [Nat.sub_zero] at hlt hgetD
    refine ⟨hlt, hgetD, hdh, ?_⟩
    unfold get_proof_of_inclusion
    rw [hf]

set_option maxRecDepth 100000 in
/-- Closed instance of claim C10 on the concrete two-block ledger: an
unknown hash is an ordinary miss, a stored token hash is found. -/
theorem proof_of_inclusion_spec_witness :
    verify_token_by_hash chainEx "nope" = false ∧
    get_proof_of_inclusion strId chainEx "nope" =
      { verified := false, message := some "Token not found in blockchain" } ∧
    (get_proof_of_inclusion strId chainEx "H").verified = true := by
  have hm := proof_of_inclusion_spec strId chainEx "nope"
  have hh := proof_of_inclusion_spec strId chainEx "H"
  refine ⟨by with_unfolding_all decide, hm.2.2.1 (by with_unfolding_all decide), ?_⟩
  rw [hh.1]
  with_unfolding_all decide

end EcoChain
